import Mathlib

/-!
Verification of the swc AST serialization contract and the ES2015
spread-lowering compatibility pass.

The development has three parts:
1. a model of the tagged JSON-like external representation and the
   hand-written `Serialize`/`Deserialize` implementation for the tri-state
   mapped-type flag `TruePlusMinus`
   (src/ecmascript/ast/src/typescript.rs, lines 484-544);
2. a model of the serialization contract for the TypeScript type nodes the
   claims cite (`TsMappedType`, `TsTypeParam`, `TsKeywordType`), and a
   round-trip proof;
3. a model of the spread-lowering pass
   (src/ecmascript/transforms/src/compat/es2015/spread) and proofs of its
   rewrite rules against the fixture tests in tests.rs.
-/

namespace Spec2Proof

/-! ### Part 1: the external tagged representation and `TruePlusMinus` -/

/-- A value of the external tagged-JSON-like representation (§4.2 of the
spec: tagged objects with a `"type"` discriminant string). Serde's data
model distinguishes booleans, strings, numbers, null, and maps; field lists
keep serialization order, lookups are by field name. -/
inductive JVal where
  | jbool (b : Bool)
  | jstr (s : String)
  | jnum (n : Nat)
  | jnull
  | jobj (fields : List (String × JVal))

/-- The tri-state mapped-type modifier flag, from
src/ecmascript/ast/src/typescript.rs lines 484-490:
`pub enum TruePlusMinus { True, Plus, Minus }`. -/
inductive TruePlusMinus where
  | True
  | Plus
  | Minus
deriving DecidableEq, Repr

/-- `impl Serialize for TruePlusMinus` (typescript.rs lines 492-503):
`True` serializes as boolean `true`, `Plus` as string `"+"`, `Minus` as
string `"-"`. -/
def truePlusMinusSerialize : TruePlusMinus → JVal
  | .True => .jbool true
  | .Plus => .jstr "+"
  | .Minus => .jstr "-"

/-- `visit_str` of `TruePlusMinusVisitor` (typescript.rs lines 518-528):
the strings `"+"`, `"-"` and `"true"` are accepted; every other string is
an `invalid_value` error. -/
def truePlusMinusVisitStr (value : String) : Option TruePlusMinus :=
  if value = "+" then some .Plus
  else if value = "-" then some .Minus
  else if value = "true" then some .True
  else none

/-- `visit_bool` of `TruePlusMinusVisitor` (typescript.rs lines 530-539):
boolean `true` is accepted as `True`, boolean `false` is an
`invalid_value` error. -/
def truePlusMinusVisitBool (value : Bool) : Option TruePlusMinus :=
  if value then some .True else none

/-- `impl Deserialize for TruePlusMinus` (typescript.rs lines 505-544):
`deserialize_any` with a visitor that implements only `visit_str` and
`visit_bool`; every other input shape hits the serde default visitor
methods and is an error (`none`). -/
def truePlusMinusDeserialize : JVal → Option TruePlusMinus
  | .jstr s => truePlusMinusVisitStr s
  | .jbool b => truePlusMinusVisitBool b
  | _ => none

/-! ### Part 2: the TypeScript type-node fragment cited by the round-trip claim

The serde machinery for the `#[ast_node]` structs is macro-generated and not
part of the repository's files; its behaviour is modelled from §4.2 of the
spec: each node serializes to a tagged object with a `"type"` discriminant
string, internal field names renamed to the external convention
(`type_ann` ↔ `typeAnnotation`, `type_param` ↔ `typeParam`), optional
fields omitted when absent (`skip_serializing_if = "Option::is_none"`) and
defaulted when missing (`#[serde(default)]`), and an unknown discriminant
is an error. The node shapes themselves are from
src/ecmascript/ast/src/typescript.rs: `TsKeywordType` (lines 259-304),
`TsMappedType` (lines 546-557), `TsTypeParam` (lines 35-46). -/

/-- Modelled from the spec: a provenance range (§2 "Span — an opaque
provenance range (byte offsets into original source)"). `swc_common::Span`
is not part of the repository's files; the external key names chosen here
are fixed arbitrarily, any fixed choice preserves the round-trip. -/
structure Span where
  lo : Nat
  hi : Nat
deriving DecidableEq, Repr

/-- Modelled from the spec: a plain identifier node (§3 "Qualified Name —
either a simple identifier or ..."). `ast/src/ident.rs` is not part of the
repository's files; only a span and the symbol text are relevant here. -/
structure Ident where
  span : Span
  sym : String
deriving DecidableEq, Repr

/-- `TsKeywordTypeKind` (typescript.rs lines 266-304): twelve variants,
each with a `#[serde(rename = ...)]` keyword string. -/
inductive TsKeywordTypeKind where
  | TsAnyKeyword
  | TsUnknownKeyword
  | TsNumberKeyword
  | TsObjectKeyword
  | TsBooleanKeyword
  | TsBigIntKeyword
  | TsStringKeyword
  | TsSymbolKeyword
  | TsVoidKeyword
  | TsUndefinedKeyword
  | TsNullKeyword
  | TsNeverKeyword
deriving DecidableEq, Repr

/-- The `#[serde(rename = ...)]` string of each `TsKeywordTypeKind` variant
(typescript.rs lines 266-304). -/
def tsKeywordTypeKindTag : TsKeywordTypeKind → String
  | .TsAnyKeyword => "any"
  | .TsUnknownKeyword => "unknown"
  | .TsNumberKeyword => "number"
  | .TsObjectKeyword => "object"
  | .TsBooleanKeyword => "boolean"
  | .TsBigIntKeyword => "bigint"
  | .TsStringKeyword => "string"
  | .TsSymbolKeyword => "symbol"
  | .TsVoidKeyword => "void"
  | .TsUndefinedKeyword => "undefined"
  | .TsNullKeyword => "null"
  | .TsNeverKeyword => "never"

/-- Deserialization of `TsKeywordTypeKind`: the derived serde impl accepts
exactly the twelve renamed keyword strings. -/
def tsKeywordTypeKindOfTag (s : String) : Option TsKeywordTypeKind :=
  if s = "any" then some .TsAnyKeyword
  else if s = "unknown" then some .TsUnknownKeyword
  else if s = "number" then some .TsNumberKeyword
  else if s = "object" then some .TsObjectKeyword
  else if s = "boolean" then some .TsBooleanKeyword
  else if s = "bigint" then some .TsBigIntKeyword
  else if s = "string" then some .TsStringKeyword
  else if s = "symbol" then some .TsSymbolKeyword
  else if s = "void" then some .TsVoidKeyword
  else if s = "undefined" then some .TsUndefinedKeyword
  else if s = "null" then some .TsNullKeyword
  else if s = "never" then some .TsNeverKeyword
  else none

/-- `TsKeywordType` (typescript.rs lines 259-264): a span and a keyword
kind. -/
structure TsKeywordType where
  span : Span
  kind : TsKeywordTypeKind
deriving DecidableEq, Repr

mutual
/-- The `TsType` sum restricted to the two variants the round-trip claim
cites (typescript.rs lines 206-227 list all nineteen; the claim's sources
are `TsKeywordType` and `TsMappedType`). An `#[ast_node]` enum serializes
as the inner variant directly — the wrapper contributes no tag of its
own. -/
inductive TsType where
  | keyword (t : TsKeywordType)
  | mapped (t : TsMappedType)
deriving DecidableEq

/-- `TsMappedType` (typescript.rs lines 546-557): span (defaulted),
optional tri-state `readonly`, required `type_param`, optional tri-state
`optional`, optional `type_ann` (external name `typeAnnotation`). -/
inductive TsMappedType where
  | mk (span : Span) (readonly : Option TruePlusMinus) (type_param : TsTypeParam)
      (optional : Option TruePlusMinus) (type_ann : OptionTsType)
deriving DecidableEq

/-- `TsTypeParam` (typescript.rs lines 35-46): span (defaulted), required
`name`, optional `constraint` and `default`. -/
inductive TsTypeParam where
  | mk (span : Span) (name : Ident) (constraint : OptionTsType) (default : OptionTsType)
deriving DecidableEq

/-- `Option<Box<TsType>>` of the source, spelled as a mutual inductive so
the fragment stays plainly mutual (the `Box` is ownership only). -/
inductive OptionTsType where
  | none
  | some (t : TsType)
deriving DecidableEq
end

/-- Modelled from the spec: span serialization (§6 "a still-valid Span on
every node ... must be present"). Two numeric bounds under fixed keys. -/
def serSpan (s : Span) : JVal :=
  .jobj [("start", .jnum s.lo), ("end", .jnum s.hi)]

/-- Modelled from the spec: identifier serialization — a tagged object
carrying the span and the symbol text. -/
def serIdent (i : Ident) : JVal :=
  .jobj [("type", .jstr "Identifier"), ("span", serSpan i.span), ("value", .jstr i.sym)]

/-- An optional tri-state field: omitted when `None`
(`skip_serializing_if = "Option::is_none"`), otherwise serialized by the
hand-written `Serialize` impl. -/
def serTPMField (name : String) : Option TruePlusMinus → List (String × JVal)
  | Option.none => []
  | Option.some v => [(name, truePlusMinusSerialize v)]

/-- `TsKeywordType` serialization: tag `"TsKeywordType"`, span, renamed
kind string. -/
def serKeyword (t : TsKeywordType) : JVal :=
  .jobj [("type", .jstr "TsKeywordType"), ("span", serSpan t.span),
    ("kind", .jstr (tsKeywordTypeKindTag t.kind))]

mutual
/-- `TsType` serialization: the wrapper enum serializes as the inner
variant (two-level discriminant rule of §4.1). -/
def serTsType : TsType → JVal
  | .keyword t => serKeyword t
  | .mapped m => .jobj (serMappedFields m)

/-- The field list of a serialized `TsMappedType`: tag, span, optional
`readonly`, `typeParam`, optional `optional`, optional `typeAnnotation` —
field names per the external convention of §4.2. -/
def serMappedFields : TsMappedType → List (String × JVal)
  | .mk sp ro tp opt ann =>
    [("type", .jstr "TsMappedType"), ("span", serSpan sp)] ++
      serTPMField "readonly" ro ++
      [("typeParam", .jobj (serTsTypeParamFields tp))] ++
      serTPMField "optional" opt ++
      serOptTypeField "typeAnnotation" ann

/-- The field list of a serialized `TsTypeParam`: tag `"TsTypeParameter"`
(typescript.rs line 35), span, `name`, optional `constraint` and
`default`. -/
def serTsTypeParamFields : TsTypeParam → List (String × JVal)
  | .mk sp nm c d =>
    [("type", .jstr "TsTypeParameter"), ("span", serSpan sp), ("name", serIdent nm)] ++
      serOptTypeField "constraint" c ++
      serOptTypeField "default" d

/-- An optional boxed-type field: omitted when absent, otherwise serialized
recursively. -/
def serOptTypeField (name : String) : OptionTsType → List (String × JVal)
  | .none => []
  | .some t => [(name, serTsType t)]
end

/-- `TsMappedType` serialization as a value. -/
def serMapped (m : TsMappedType) : JVal := .jobj (serMappedFields m)

/-- `TsTypeParam` serialization as a value. -/
def serTsTypeParam (p : TsTypeParam) : JVal := .jobj (serTsTypeParamFields p)

/-- Span deserialization: both numeric bounds must be present. -/
def deserSpan : JVal → Option Span
  | .jobj fields =>
    match fields.lookup "start", fields.lookup "end" with
    | Option.some (.jnum lo), Option.some (.jnum hi) => Option.some ⟨lo, hi⟩
    | _, _ => Option.none
  | _ => Option.none

/-- A `#[serde(default)]` span field: a missing `"span"` key yields the
default (empty) span rather than an error (§3: "defaults to an
empty/zero span"). -/
def deserSpanField (fields : List (String × JVal)) : Option Span :=
  match fields.lookup "span" with
  | Option.none => Option.some ⟨0, 0⟩
  | Option.some v => deserSpan v

/-- Identifier deserialization. -/
def deserIdent : JVal → Option Ident
  | .jobj fields =>
    match deserSpanField fields, fields.lookup "value" with
    | Option.some sp, Option.some (.jstr s) => Option.some ⟨sp, s⟩
    | _, _ => Option.none
  | _ => Option.none

/-- An optional tri-state field on deserialization: a missing key defaults
to `None` (§4.2 "Deserialization defaults missing optional fields to their
absent value rather than failing"); a present key must satisfy the
hand-written `Deserialize` impl. -/
def deserTPMField (fields : List (String × JVal)) (name : String) :
    Option (Option TruePlusMinus) :=
  match fields.lookup name with
  | Option.none => Option.some Option.none
  | Option.some v => (truePlusMinusDeserialize v).map Option.some

/-- `TsKeywordType` deserialization from its field list. -/
def deserKeyword (fields : List (String × JVal)) : Option TsKeywordType :=
  match deserSpanField fields, fields.lookup "kind" with
  | Option.some sp, Option.some (.jstr s) =>
    match tsKeywordTypeKindOfTag s with
    | Option.some k => Option.some ⟨sp, k⟩
    | Option.none => Option.none
  | _, _ => Option.none

/-- A value found by field lookup is structurally smaller than the field
list holding it (termination measure of the recursive deserializer). -/
theorem lookup_sizeOf_lt {fields : List (String × JVal)} {key : String} {v : JVal}
    (h : fields.lookup key = Option.some v) : sizeOf v < sizeOf fields := by
  induction fields with
  | nil => simp [List.lookup] at h
  | cons hd tl ih =>
    obtain ⟨k, w⟩ := hd
    rw [List.lookup] at h
    split at h
    · cases h
      simp only [List.cons.sizeOf_spec, Prod.mk.sizeOf_spec]
      omega
    · have := ih h
      simp only [List.cons.sizeOf_spec, Prod.mk.sizeOf_spec]
      omega

mutual
/-- `TsType` deserialization: dispatch on the `"type"` discriminant; an
unknown discriminant string is an error (§4.2). -/
def deserTsType (j : JVal) : Option TsType :=
  match j with
  | .jobj fields =>
    match fields.lookup "type" with
    | Option.some (.jstr "TsKeywordType") => (deserKeyword fields).map .keyword
    | Option.some (.jstr "TsMappedType") =>
      match deserMapped fields with
      | Option.some m => Option.some (.mapped m)
      | Option.none => Option.none
    | _ => Option.none
  | _ => Option.none
termination_by sizeOf j
decreasing_by
  simp only [JVal.jobj.sizeOf_spec]
  omega

/-- `TsMappedType` deserialization from its field list: span and the two
tri-state flags are defaulted when missing, `typeParam` is required,
`typeAnnotation` is optional and recursive. -/
def deserMapped (fields : List (String × JVal)) : Option TsMappedType :=
  match deserSpanField fields, deserTPMField fields "readonly",
      deserTPMField fields "optional" with
  | Option.some sp, Option.some ro, Option.some opt =>
    match hp : fields.lookup "typeParam" with
    | Option.none => Option.none
    | Option.some vtp =>
      match deserTsTypeParam vtp with
      | Option.none => Option.none
      | Option.some tp =>
        match ha : fields.lookup "typeAnnotation" with
        | Option.none => Option.some (.mk sp ro tp opt .none)
        | Option.some vann =>
          match deserTsType vann with
          | Option.some t => Option.some (.mk sp ro tp opt (.some t))
          | Option.none => Option.none
  | _, _, _ => Option.none
termination_by sizeOf fields
decreasing_by
  · exact lookup_sizeOf_lt hp
  · exact lookup_sizeOf_lt ha

/-- `TsTypeParam` deserialization: `name` is required, `constraint` and
`default` are optional and recursive. -/
def deserTsTypeParam (j : JVal) : Option TsTypeParam :=
  match j with
  | .jobj fields =>
    match deserSpanField fields, fields.lookup "name" with
    | Option.some sp, Option.some vname =>
      match deserIdent vname with
      | Option.none => Option.none
      | Option.some nm =>
        match hc : fields.lookup "constraint", hd : fields.lookup "default" with
        | Option.none, Option.none => Option.some (.mk sp nm .none .none)
        | Option.some vc, Option.none =>
          match deserTsType vc with
          | Option.some c => Option.some (.mk sp nm (.some c) .none)
          | Option.none => Option.none
        | Option.none, Option.some vd =>
          match deserTsType vd with
          | Option.some d => Option.some (.mk sp nm .none (.some d))
          | Option.none => Option.none
        | Option.some vc, Option.some vd =>
          match deserTsType vc, deserTsType vd with
          | Option.some c, Option.some d => Option.some (.mk sp nm (.some c) (.some d))
          | _, _ => Option.none
    | _, _ => Option.none
  | _ => Option.none
termination_by sizeOf j
decreasing_by
  all_goals
    simp only [JVal.jobj.sizeOf_spec]
    first
      | (have hlt := lookup_sizeOf_lt hc; omega)
      | (have hlt := lookup_sizeOf_lt hd; omega)
end

/-! ### Part 3: the spread-lowering pass

The pass implementation (src/ecmascript/transforms/src/compat/es2015/spread)
is not among the repository's staged files; only its fixture tests
(spread/tests.rs) are. The pass is therefore modelled from §4.4 of the
spec, with every point the spec leaves open (or states differently) pinned
by the expected outputs of the fixture tests, which are the repository's
own code and hence the authority:
- the run partition and `concat` join (spec §4.4 steps 1-3; fixtures
  `custom_call`, `custom_call_multi_spread`, `array_literal_*`);
- a sole single spread is passed bare in call position (fixtures `single`,
  `method_call_single_arg`, `method_call_array_literal`), and joined as
  `[].concat(e)` in array/new position (fixtures `single`,
  `new_expression`);
- a spread of the literal `arguments` is wrapped as
  `Array.prototype.slice.call(arguments)` where aggregation is needed
  (fixtures `arguments_array`, `arguments_concat`) and passed bare as a
  sole call argument (fixture `arguments`);
- a member-expression callee hoists its receiver into a temporary for
  every receiver that is not `this` — including bare identifiers — per
  fixtures `issue_270`, `contexted_method_call_single_arg`,
  `contexted_method_call_multiple_args` (the spec's §4.4 rule 2 words
  "not side-effect-free (not a bare identifier)" disagree with these
  fixtures; the fixtures win);
- `super.method(...)` rewrites to `super.method.apply(this, ...)` with no
  temporary (fixtures `contexted_method_call_super_*`);
- `new` with spread rewrites to `_construct(Callee, ...)` (fixture
  `new_expression`). -/

mutual
/-- The expression fragment of the swc AST the spread pass inspects
(ast/src/expr.rs is not among the staged files; shapes follow §3 and the
constructs appearing in the fixtures): identifiers, `this`, literals,
(super-)member accesses, calls, `new`, array literals, assignments and
`void`. -/
inductive Expr where
  | ident (name : String)
  | thisE
  | lit (n : Nat)
  | strLit (s : String)
  | member (obj : Expr) (prop : Expr) (computed : Bool)
  | superMember (prop : Expr) (computed : Bool)
  | voidE (e : Expr)
  | assign (lhs : Expr) (rhs : Expr)
  | call (callee : Expr) (args : Args)
  | newE (callee : Expr) (args : Args)
  | array (elems : Elems)
deriving DecidableEq, Repr

/-- `Vec<ExprOrSpread>` — an argument list; each argument carries its
spread flag (`ExprOrSpread { spread, expr }`). -/
inductive Args where
  | nil
  | cons (spread : Bool) (e : Expr) (rest : Args)
deriving DecidableEq, Repr

/-- `Vec<Option<ExprOrSpread>>` — an array-literal element list; `hole` is
an elision (`None`). -/
inductive Elems where
  | nil
  | hole (rest : Elems)
  | elem (spread : Bool) (e : Expr) (rest : Elems)
deriving DecidableEq, Repr
end

/-- Does an argument list contain a spread argument? -/
def hasSpreadArgs : Args → Bool
  | .nil => false
  | .cons s _ rest => s || hasSpreadArgs rest

/-- Does an element list contain a spread element? -/
def hasSpreadElems : Elems → Bool
  | .nil => false
  | .hole rest => hasSpreadElems rest
  | .elem s _ rest => s || hasSpreadElems rest

/-- View an argument list as an element list (call arguments have no
holes). -/
def elemsOfArgs : Args → Elems
  | .nil => .nil
  | .cons s e rest => .elem s e (elemsOfArgs rest)

/-- Is this expression the literal identifier `arguments`? (The
`arguments`-object special case of §4.4.) -/
def isArgumentsIdent : Expr → Bool
  | .ident "arguments" => true
  | _ => false

/-- The `_toConsumableArray(expr)` runtime-helper call (§4.4 step 2). -/
def toConsumableArray (e : Expr) : Expr :=
  .call (.ident "_toConsumableArray") (.cons false e .nil)

/-- The `Array.prototype.slice.call(expr)` form the pass emits for a
spread of the literal `arguments` (fixtures `arguments_array`,
`arguments_concat`). -/
def arrayProtoSliceCall (e : Expr) : Expr :=
  .call
    (.member
      (.member (.member (.ident "Array") (.ident "prototype") false) (.ident "slice") false)
      (.ident "call") false)
    (.cons false e .nil)

/-- The aggregation form of one spread expression inside a `concat` join:
`Array.prototype.slice.call(arguments)` for the literal `arguments`,
`_toConsumableArray(e)` otherwise. -/
def spreadAggregate (e : Expr) : Expr :=
  if isArgumentsIdent e then arrayProtoSliceCall e else toConsumableArray e

/-- A run of the partition of §4.4 step 1: either a maximal run of plain
(non-spread) elements — holes included — or a single spread element. -/
inductive Run where
  | plain (xs : List (Option Expr))
  | spreadR (e : Expr)
deriving DecidableEq, Repr

/-- Partition an element list into maximal runs of plain elements and
single spread elements, in source order (§4.4 step 1). -/
def toRuns : Elems → List Run
  | .nil => []
  | .elem true e rest => .spreadR e :: toRuns rest
  | .hole rest =>
    match toRuns rest with
    | .plain xs :: rs => .plain (Option.none :: xs) :: rs
    | rs => .plain [Option.none] :: rs
  | .elem false e rest =>
    match toRuns rest with
    | .plain xs :: rs => .plain (Option.some e :: xs) :: rs
    | rs => .plain [Option.some e] :: rs

/-- Rebuild an element list from a list of plain elements (plain runs
carry no spread flags; holes stay holes). -/
def plainElems : List (Option Expr) → Elems
  | [] => .nil
  | Option.none :: r => .hole (plainElems r)
  | Option.some e :: r => .elem false e (plainElems r)

/-- The literal array a plain run becomes (§4.4 step 2), holes preserved
positionally. -/
def plainArray (xs : List (Option Expr)) : Expr := .array (plainElems xs)

/-- An argument list of plain (non-spread) expressions. -/
def argsOfList : List Expr → Args
  | [] => .nil
  | e :: r => .cons false e (argsOfList r)

/-- `pre.concat(part1, part2, ...)` — the single `concat` call joining the
plain prefix with every subsequent run (§4.4 step 3). -/
def concatCall (pre : Expr) (parts : List Expr) : Expr :=
  .call (.member pre (.ident "concat") false) (argsOfList parts)

/-- The expression one run contributes to the `concat` join: a plain run
becomes its literal array, a spread run its aggregation form. -/
def runToExpr : Run → Expr
  | .plain xs => plainArray xs
  | .spreadR e => spreadAggregate e

/-- The `concat` join of a run list as the spec words it (§4.4 step 3):
the plain prefix — or `[]` when the list does not start with a plain
run — `concat`-ed with every subsequent run in source order. -/
def runsJoin : List Run → Expr
  | .plain xs :: rest => concatCall (plainArray xs) (rest.map runToExpr)
  | runs => concatCall (.array .nil) (runs.map runToExpr)

/-- The `<argsExpression>` built from an argument/element list containing
a spread (§4.4 steps 1-3 plus the sole-single-spread special cases).
`allowBare` is true in call position, where a sole single spread is passed
through bare (fixtures `single`→`method_call_single_arg`); in array/new
position a sole single spread is joined as `[].concat(e)` (fixtures
`single`, `new_expression`), or `Array.prototype.slice.call(arguments)`
for the literal `arguments` (fixture `arguments_array`). -/
def concatArgs (elems : Elems) (allowBare : Bool) : Expr :=
  match elems with
  | .elem true e .nil =>
    if allowBare then e
    else if isArgumentsIdent e then arrayProtoSliceCall e
    else concatCall (.array .nil) [e]
  | _ =>
    match toRuns elems with
    | [.plain xs] => plainArray xs
    | runs => runsJoin runs

/-- The fresh-temporary name the pass derives from a hoisted receiver:
`_` plus the receiver identifier's text, or the static member property's
text (fixtures `issue_270` `_instance`, `contexted_method_call_single_arg`
`_foob`/`_test`, `regression_t6761` `_obj`). -/
def aliasIdent : Expr → String
  | .ident n => "_" ++ n
  | .member _ (.ident p) false => "_" ++ p
  | _ => "_ref"

/-- `f.apply(thisArg, argsExpr)`. -/
def applyCall (f : Expr) (thisArg : Expr) (argsExpr : Expr) : Expr :=
  .call (.member f (.ident "apply") false)
    (.cons false thisArg (.cons false argsExpr .nil))

/-- `void 0`. -/
def voidZero : Expr := .voidE (.lit 0)

/-- Modelled from the spec: the pass's per-node rewrite hook (§4.4), the
`Fold<Expr>` override. Returns the rewritten node together with the names
of the temporaries hoisted to the enclosing scope. Nodes other than array
literals, calls and `new` expressions with spread are returned
unchanged. -/
def spreadRewrite : Expr → Expr × List String
  | .array elems =>
    if hasSpreadElems elems then (concatArgs elems false, [])
    else (.array elems, [])
  | .call callee args =>
    if hasSpreadArgs args then
      let argsExpr := concatArgs (elemsOfArgs args) true
      match callee with
      | .member obj prop computed =>
        match obj with
        | .thisE => (applyCall (.member .thisE prop computed) .thisE argsExpr, [])
        | _ =>
          let tmp := aliasIdent obj
          (applyCall (.member (.assign (.ident tmp) obj) prop computed)
            (.ident tmp) argsExpr, [tmp])
      | .superMember prop computed =>
        (applyCall (.superMember prop computed) .thisE argsExpr, [])
      | _ => (applyCall callee voidZero argsExpr, [])
    else (.call callee args, [])
  | .newE callee args =>
    if hasSpreadArgs args then
      (.call (.ident "_construct")
        (.cons false callee (.cons false (concatArgs (elemsOfArgs args) false) .nil)), [])
    else (.newE callee args, [])
  | e => (e, [])

mutual
/-- The full bottom-up traversal (§4.3: children first, so the hook sees
already-transformed subtrees): structural recursion applying
`spreadRewrite` to every node, accumulating hoisted temporary names in
source order. -/
def foldExpr : Expr → Expr × List String
  | .ident n => (.ident n, [])
  | .thisE => (.thisE, [])
  | .lit n => (.lit n, [])
  | .strLit s => (.strLit s, [])
  | .member o p c =>
    let (o', t1) := foldExpr o
    let (p', t2) := foldExpr p
    (.member o' p' c, t1 ++ t2)
  | .superMember p c =>
    let (p', t) := foldExpr p
    (.superMember p' c, t)
  | .voidE e =>
    let (e', t) := foldExpr e
    (.voidE e', t)
  | .assign l r =>
    let (l', t1) := foldExpr l
    let (r', t2) := foldExpr r
    (.assign l' r', t1 ++ t2)
  | .call c args =>
    let (c', t1) := foldExpr c
    let (a', t2) := foldArgs args
    let (e', t3) := spreadRewrite (.call c' a')
    (e', t1 ++ t2 ++ t3)
  | .newE c args =>
    let (c', t1) := foldExpr c
    let (a', t2) := foldArgs args
    let (e', t3) := spreadRewrite (.newE c' a')
    (e', t1 ++ t2 ++ t3)
  | .array elems =>
    let (el', t1) := foldElems elems
    let (e', t2) := spreadRewrite (.array el')
    (e', t1 ++ t2)

/-- Traversal of an argument list. -/
def foldArgs : Args → Args × List String
  | .nil => (.nil, [])
  | .cons s e rest =>
    let (e', t1) := foldExpr e
    let (r', t2) := foldArgs rest
    (.cons s e' r', t1 ++ t2)

/-- Traversal of an array-element list. -/
def foldElems : Elems → Elems × List String
  | .nil => (.nil, [])
  | .hole rest =>
    let (r', t) := foldElems rest
    (.hole r', t)
  | .elem s e rest =>
    let (e', t1) := foldExpr e
    let (r', t2) := foldElems rest
    (.elem s e' r', t1 ++ t2)
end

mutual
/-- Deep spread-freeness of an expression (no spread syntax anywhere in
the tree). -/
def noSpreadExpr : Expr → Bool
  | .ident _ => true
  | .thisE => true
  | .lit _ => true
  | .strLit _ => true
  | .member o p _ => noSpreadExpr o && noSpreadExpr p
  | .superMember p _ => noSpreadExpr p
  | .voidE e => noSpreadExpr e
  | .assign l r => noSpreadExpr l && noSpreadExpr r
  | .call c args => noSpreadExpr c && noSpreadArgs args
  | .newE c args => noSpreadExpr c && noSpreadArgs args
  | .array elems => noSpreadElems elems

/-- Deep spread-freeness of an argument list. -/
def noSpreadArgs : Args → Bool
  | .nil => true
  | .cons s e rest => !s && noSpreadExpr e && noSpreadArgs rest

/-- Deep spread-freeness of an element list. -/
def noSpreadElems : Elems → Bool
  | .nil => true
  | .hole rest => noSpreadElems rest
  | .elem s e rest => !s && noSpreadExpr e && noSpreadElems rest
end

/-- Concatenation of element lists. -/
def appendElems : Elems → Elems → Elems
  | .nil, l => l
  | .hole r, l => .hole (appendElems r l)
  | .elem s e r, l => .elem s e (appendElems r l)

/-- Rebuild an element list from a run list — plain runs contribute their
elements (spread flag `false`), spread runs a single spread element. Used
to state that the partition of §4.4 step 1 loses nothing and keeps source
order. -/
def runsFlat : List Run → Elems
  | [] => .nil
  | .plain xs :: rs => appendElems (plainElems xs) (runsFlat rs)
  | .spreadR e :: rs => .elem true e (runsFlat rs)

/-- Does a run list not start with a plain run? -/
def noLeadingPlain : List Run → Bool
  | .plain _ :: _ => false
  | _ => true

/-- Well-formedness of a run partition: every plain run is nonempty and
no two plain runs are adjacent (maximality of §4.4 step 1). -/
def runsWF : List Run → Bool
  | [] => true
  | .spreadR _ :: rs => runsWF rs
  | .plain xs :: rs => !xs.isEmpty && noLeadingPlain rs && runsWF rs

/-- Is an expression a `<fn>.apply(...)` call? (Used to state that array
and `new` lowering never use the `apply` strategy.) -/
def isApplyCall : Expr → Bool
  | .call (.member _ (.ident "apply") false) _ => true
  | _ => false

/-- The hole mask of an element list (`true` at elisions). -/
def holeMask : Elems → List Bool
  | .nil => []
  | .hole rest => true :: holeMask rest
  | .elem _ _ rest => false :: holeMask rest

/-! ### Helper lemmas -/

/-- Serializing then deserializing a span is the identity. -/
theorem roundSpan (sp : Span) : deserSpan (serSpan sp) = Option.some sp := by
  simp [serSpan, deserSpan, List.lookup]

/-- Serializing then deserializing an identifier is the identity. -/
theorem roundIdent (i : Ident) : deserIdent (serIdent i) = Option.some i := by
  simp [serIdent, deserIdent, deserSpanField, List.lookup, roundSpan]

/-- Serializing then deserializing a tri-state flag is the identity. -/
theorem roundTPM (v : TruePlusMinus) :
    truePlusMinusDeserialize (truePlusMinusSerialize v) = Option.some v := by
  cases v <;> simp [truePlusMinusSerialize, truePlusMinusDeserialize,
    truePlusMinusVisitStr, truePlusMinusVisitBool]

/-- The keyword-kind rename table round-trips. -/
theorem roundKind (k : TsKeywordTypeKind) :
    tsKeywordTypeKindOfTag (tsKeywordTypeKindTag k) = Option.some k := by
  cases k <;> rfl

/-- Serializing then deserializing a keyword-type node is the identity. -/
theorem roundKeyword (t : TsKeywordType) :
    deserKeyword [("type", JVal.jstr "TsKeywordType"), ("span", serSpan t.span),
      ("kind", JVal.jstr (tsKeywordTypeKindTag t.kind))] = Option.some t := by
  simp [deserKeyword, deserSpanField, List.lookup, roundSpan, roundKind]

mutual
/-- Serializing then deserializing any type node of the fragment is the
identity. -/
theorem roundTsType : ∀ t : TsType, deserTsType (serTsType t) = Option.some t := by
  intro t
  cases t with
  | keyword k =>
    simp [serTsType, serKeyword, deserTsType, List.lookup, roundKeyword]
  | mapped m =>
    have hm := roundMapped m
    cases m with
    | mk sp ro tp opt ann =>
      simp only [serTsType, deserTsType]
      rw [show (serMappedFields (.mk sp ro tp opt ann)).lookup "type"
            = Option.some (JVal.jstr "TsMappedType") by simp [serMappedFields, List.lookup]]
      simp [hm]

/-- Serializing then deserializing a mapped-type node is the identity. -/
theorem roundMapped : ∀ m : TsMappedType,
    deserMapped (serMappedFields m) = Option.some m := by
  intro m
  cases m with
  | mk sp ro tp opt ann =>
    have hp := roundParam tp
    cases ro <;> cases opt <;> cases ann <;>
      simp_all [serMappedFields, serTPMField, serOptTypeField, deserMapped, deserSpanField,
        deserTPMField, List.lookup, roundSpan, roundTPM, roundTsType]

/-- Serializing then deserializing a type-parameter node is the identity. -/
theorem roundParam : ∀ p : TsTypeParam,
    deserTsTypeParam (.jobj (serTsTypeParamFields p)) = Option.some p := by
  intro p
  cases p with
  | mk sp nm c d =>
    cases c <;> cases d <;>
      simp_all [serTsTypeParamFields, serOptTypeField, deserTsTypeParam, deserSpanField,
        List.lookup, roundSpan, roundIdent, roundTsType]
end

/-- The run partition loses nothing and keeps source order: flattening the
runs rebuilds the original element list. -/
theorem toRuns_flat : ∀ elems : Elems, runsFlat (toRuns elems) = elems := by
  intro elems
  cases elems with
  | nil => rfl
  | hole rest =>
    have ih := toRuns_flat rest
    simp only [toRuns]
    cases h : toRuns rest with
    | nil =>
      rw [h] at ih
      simp [runsFlat, plainElems, appendElems, ← ih]
    | cons r rs =>
      rw [h] at ih
      cases r <;> simp_all [runsFlat, plainElems, appendElems]
  | elem s e rest =>
    have ih := toRuns_flat rest
    cases s with
    | true => simp [toRuns, runsFlat, ih]
    | false =>
      simp only [toRuns]
      cases h : toRuns rest with
      | nil =>
        rw [h] at ih
        simp [runsFlat, plainElems, appendElems, ← ih]
      | cons r rs =>
        rw [h] at ih
        cases r <;> simp_all [runsFlat, plainElems, appendElems]

/-- The run partition is well formed: plain runs are nonempty and maximal
(no two adjacent). -/
theorem toRuns_wf : ∀ elems : Elems, runsWF (toRuns elems) = true := by
  intro elems
  cases elems with
  | nil => rfl
  | hole rest =>
    have ih := toRuns_wf rest
    simp only [toRuns]
    cases h : toRuns rest with
    | nil => rfl
    | cons r rs =>
      rw [h] at ih
      cases r <;> simp_all [runsWF, noLeadingPlain, List.isEmpty]
  | elem s e rest =>
    have ih := toRuns_wf rest
    cases s with
    | true => simp [toRuns, runsWF, ih]
    | false =>
      simp only [toRuns]
      cases h : toRuns rest with
      | nil => rfl
      | cons r rs =>
        rw [h] at ih
        cases r <;> simp_all [runsWF, noLeadingPlain, List.isEmpty]

/-- With at least two runs, the `<argsExpression>` is exactly the `concat`
join of the run partition. -/
theorem concatArgs_eq_runsJoin (elems : Elems) (b : Bool)
    (h : 2 ≤ (toRuns elems).length) :
    concatArgs elems b = runsJoin (toRuns elems) := by
  rw [concatArgs.eq_def]
  split
  · rename_i e
    simp [toRuns] at h
  · split
    · rename_i xs heq
      rw [heq] at h
      simp at h
    · rfl

/-- A `concat` call is not an `apply` call. -/
theorem concatCall_not_apply (pre : Expr) (parts : List Expr) :
    isApplyCall (concatCall pre parts) = false := rfl

/-- The `Array.prototype.slice.call` form is not an `apply` call. -/
theorem sliceCall_not_apply (e : Expr) :
    isApplyCall (arrayProtoSliceCall e) = false := rfl

/-- The `concat` join of any run list is not an `apply` call. -/
theorem runsJoin_not_apply (runs : List Run) :
    isApplyCall (runsJoin runs) = false := by
  cases runs with
  | nil => rfl
  | cons r rs => cases r <;> rfl

/-- In array/new position (`allowBare = false`) the `<argsExpression>` is
never an `apply` call. -/
theorem concatArgs_not_apply (elems : Elems) :
    isApplyCall (concatArgs elems false) = false := by
  rw [concatArgs.eq_def]
  split
  · rename_i e
    cases hA : isArgumentsIdent e <;>
      simp [hA, sliceCall_not_apply, concatCall_not_apply]
  · split
    · rfl
    · exact runsJoin_not_apply _

/-- A deeply spread-free argument list has no (top-level) spread
argument. -/
theorem noSpreadArgs_hasSpread : ∀ a : Args, noSpreadArgs a = true →
    hasSpreadArgs a = false := by
  intro a h
  cases a with
  | nil => rfl
  | cons s e rest =>
    simp only [noSpreadArgs, Bool.and_eq_true] at h
    have ih := noSpreadArgs_hasSpread rest h.2
    simp_all [hasSpreadArgs]

/-- A deeply spread-free element list has no (top-level) spread element. -/
theorem noSpreadElems_hasSpread : ∀ l : Elems, noSpreadElems l = true →
    hasSpreadElems l = false := by
  intro l h
  cases l with
  | nil => rfl
  | hole rest =>
    simp only [noSpreadElems] at h
    have ih := noSpreadElems_hasSpread rest h
    simp_all [hasSpreadElems]
  | elem s e rest =>
    simp only [noSpreadElems, Bool.and_eq_true] at h
    have ih := noSpreadElems_hasSpread rest h.2
    simp_all [hasSpreadElems]

mutual
/-- On a deeply spread-free expression the pass is the identity and hoists
nothing. -/
theorem foldExpr_noop : ∀ e : Expr, noSpreadExpr e = true → foldExpr e = (e, []) := by
  intro e h
  cases e with
  | ident n => rfl
  | thisE => rfl
  | lit n => rfl
  | strLit s => rfl
  | member o p c =>
    simp only [noSpreadExpr, Bool.and_eq_true] at h
    simp [foldExpr, foldExpr_noop o h.1, foldExpr_noop p h.2]
  | superMember p c =>
    simp only [noSpreadExpr] at h
    simp [foldExpr, foldExpr_noop p h]
  | voidE e' =>
    simp only [noSpreadExpr] at h
    simp [foldExpr, foldExpr_noop e' h]
  | assign l r =>
    simp only [noSpreadExpr, Bool.and_eq_true] at h
    simp [foldExpr, foldExpr_noop l h.1, foldExpr_noop r h.2]
  | call c args =>
    simp only [noSpreadExpr, Bool.and_eq_true] at h
    simp [foldExpr, foldExpr_noop c h.1, foldArgs_noop args h.2, spreadRewrite,
      noSpreadArgs_hasSpread args h.2]
  | newE c args =>
    simp only [noSpreadExpr, Bool.and_eq_true] at h
    simp [foldExpr, foldExpr_noop c h.1, foldArgs_noop args h.2, spreadRewrite,
      noSpreadArgs_hasSpread args h.2]
  | array elems =>
    simp only [noSpreadExpr] at h
    simp [foldExpr, foldElems_noop elems h, spreadRewrite,
      noSpreadElems_hasSpread elems h]

/-- On a deeply spread-free argument list the traversal is the identity. -/
theorem foldArgs_noop : ∀ a : Args, noSpreadArgs a = true → foldArgs a = (a, []) := by
  intro a h
  cases a with
  | nil => rfl
  | cons s e rest =>
    simp only [noSpreadArgs, Bool.and_eq_true] at h
    simp [foldArgs, foldExpr_noop e h.1.2, foldArgs_noop rest h.2]

/-- On a deeply spread-free element list the traversal is the identity. -/
theorem foldElems_noop : ∀ l : Elems, noSpreadElems l = true → foldElems l = (l, []) := by
  intro l h
  cases l with
  | nil => rfl
  | hole rest =>
    simp only [noSpreadElems] at h
    simp [foldElems, foldElems_noop rest h]
  | elem s e rest =>
    simp only [noSpreadElems, Bool.and_eq_true] at h
    simp [foldElems, foldExpr_noop e h.1.2, foldElems_noop rest h.2]
end

/-! ### The claims -/

/-- C1, counterexample: deserialization of the tri-state flag does NOT
reject every string other than `"+"`/`"-"` — the string `"true"` is
neither, yet `visit_str` (typescript.rs line 525) accepts it and yields
`True`. -/
theorem truePlusMinusDeserialize_accepts_string_true :
    truePlusMinusDeserialize (JVal.jstr "true") = Option.some TruePlusMinus.True ∧
    "true" ≠ "+" ∧ "true" ≠ "-" :=
  ⟨rfl, by decide, by decide⟩

/-- C1, amended: deserialization of the tri-state flag succeeds on exactly
FOUR inputs — boolean `true` and the string `"true"` (both yielding
`True`), string `"+"` (yielding `Plus`) and string `"-"` (yielding
`Minus`) — and errors on every other input, in particular on boolean
`false` and on any other string. -/
theorem truePlusMinusDeserialize_characterization (v : JVal) :
    (truePlusMinusDeserialize v = Option.some TruePlusMinus.True ↔
      (v = .jbool true ∨ v = .jstr "true")) ∧
    (truePlusMinusDeserialize v = Option.some TruePlusMinus.Plus ↔ v = .jstr "+") ∧
    (truePlusMinusDeserialize v = Option.some TruePlusMinus.Minus ↔ v = .jstr "-") ∧
    (truePlusMinusDeserialize v = Option.none ↔
      ¬(v = .jbool true ∨ v = .jstr "true" ∨ v = .jstr "+" ∨ v = .jstr "-")) := by
  cases v with
  | jbool b =>
    cases b <;> simp [truePlusMinusDeserialize, truePlusMinusVisitBool]
  | jstr s =>
    simp only [truePlusMinusDeserialize, truePlusMinusVisitStr]
    by_cases h1 : s = "+" <;> by_cases h2 : s = "-" <;> by_cases h3 : s = "true" <;>
      simp_all
  | jnum n => simp [truePlusMinusDeserialize]
  | jnull => simp [truePlusMinusDeserialize]
  | jobj fields => simp [truePlusMinusDeserialize]

/-- C3: for every constructible node of the embedded schema fragment —
the tri-state flag and the full mutually recursive `TsType` /
`TsMappedType` / `TsTypeParam` fragment the claim cites — deserializing
the serialization yields the original node exactly (spans included, so a
fortiori modulo span normalization). -/
theorem serialization_roundtrip :
    (∀ v : TruePlusMinus,
      truePlusMinusDeserialize (truePlusMinusSerialize v) = Option.some v) ∧
    (∀ t : TsType, deserTsType (serTsType t) = Option.some t) ∧
    (∀ m : TsMappedType, deserTsType (serMapped m) = Option.some (TsType.mapped m)) ∧
    (∀ p : TsTypeParam, deserTsTypeParam (serTsTypeParam p) = Option.some p) := by
  refine ⟨roundTPM, roundTsType, ?_, roundParam⟩
  intro m
  have h := roundTsType (TsType.mapped m)
  simpa [serTsType, serMapped] using h

/-- C2, counterexample: for `foob.add(...numbers)` the receiver `foob` is
a bare identifier, yet the pass hoists it into the temporary `_foob` and
rewrites to `(_foob = foob).add.apply(_foob, numbers)` (fixture
`contexted_method_call_single_arg`) — refuting the claim that no
temporary is introduced for a bare-identifier receiver. -/
theorem memberCallSpread_hoists_bare_ident_receiver :
    foldExpr (.call (.member (.ident "foob") (.ident "add") false)
        (.cons true (.ident "numbers") .nil)) =
      (applyCall (.member (.assign (.ident "_foob") (.ident "foob")) (.ident "add") false)
        (.ident "_foob") (.ident "numbers"), ["_foob"]) ∧
    (foldExpr (.call (.member (.ident "foob") (.ident "add") false)
        (.cons true (.ident "numbers") .nil))).2 ≠ [] :=
  ⟨by decide, by decide⟩

/-- C2, amended: for every call with a member-expression callee containing
a spread argument, the pass hoists the receiver into a fresh temporary
whenever the receiver is not `this` — bare identifiers included — and the
temporary is used both for the member access and as the `this` argument of
the emitted `apply` call; when the receiver is `this`, no temporary is
introduced. -/
theorem memberCallSpread_receiver_hoisting (obj prop : Expr) (computed : Bool)
    (args : Args) (hs : hasSpreadArgs args = true) (hobj : obj ≠ Expr.thisE) :
    spreadRewrite (.call (.member obj prop computed) args) =
      (applyCall (.member (.assign (.ident (aliasIdent obj)) obj) prop computed)
        (.ident (aliasIdent obj)) (concatArgs (elemsOfArgs args) true),
       [aliasIdent obj]) ∧
    spreadRewrite (.call (.member Expr.thisE prop computed) args) =
      (applyCall (.member Expr.thisE prop computed) Expr.thisE
        (concatArgs (elemsOfArgs args) true), []) := by
  constructor
  · cases obj <;> simp_all [spreadRewrite]
  · simp [spreadRewrite, hs]

/-- C2, witness: the amended hoisting theorem applied to the
`contexted_method_call_single_arg` fixture input. -/
theorem memberCallSpread_receiver_hoisting_witness :
    (spreadRewrite (.call (.member (.ident "foob") (.ident "add") false)
        (.cons true (.ident "numbers") .nil))).2 = ["_foob"] := by
  have h := memberCallSpread_receiver_hoisting (.ident "foob") (.ident "add") false
    (.cons true (.ident "numbers") .nil) (by decide) (by decide)
  rw [h.1]
  rfl

/-- C4: the pass partitions an argument/element list into maximal runs in
source order (flattening the partition restores the list, the partition is
well formed), and with more than one run the `<argsExpression>` is the
single `concat` join of the plain prefix (or `[]`) with every subsequent
run in source order; concretely, `add(foo, ...numbers, bar)` becomes
`add.apply(void 0, [foo].concat(_toConsumableArray(numbers), [bar]))`
(fixture `method_call_middle`). -/
theorem spread_runs_concat_join (elems : Elems) (b : Bool)
    (h : 2 ≤ (toRuns elems).length) :
    runsFlat (toRuns elems) = elems ∧
    runsWF (toRuns elems) = true ∧
    concatArgs elems b = runsJoin (toRuns elems) ∧
    foldExpr (.call (.ident "add") (.cons false (.ident "foo")
        (.cons true (.ident "numbers") (.cons false (.ident "bar") .nil)))) =
      (applyCall (.ident "add") voidZero
        (concatCall (plainArray [Option.some (.ident "foo")])
          [toConsumableArray (.ident "numbers"),
           plainArray [Option.some (.ident "bar")]]), []) :=
  ⟨toRuns_flat elems, toRuns_wf elems, concatArgs_eq_runsJoin elems b h, by decide⟩

/-- C4, witness: the run/concat theorem applied to the element list of
`add(foo, ...numbers, bar)`. -/
theorem spread_runs_concat_join_witness :
    concatArgs (.elem false (.ident "foo") (.elem true (.ident "numbers")
        (.elem false (.ident "bar") .nil))) true =
      runsJoin (toRuns (.elem false (.ident "foo") (.elem true (.ident "numbers")
        (.elem false (.ident "bar") .nil)))) :=
  (spread_runs_concat_join (.elem false (.ident "foo") (.elem true (.ident "numbers")
    (.elem false (.ident "bar") .nil))) true (by decide)).2.2.1

/-- C5: a call whose only argument is a single spread of the literal
`arguments` passes `arguments` bare — no `_toConsumableArray` wrapper —
as `callee.apply(void 0, arguments)` for a plain callee and
`this.m.apply(this, arguments)` for a `this`-member callee (fixtures
`arguments`, `this_context`). -/
theorem sole_arguments_spread_bare (f : String) (prop : Expr) (computed : Bool) :
    spreadRewrite (.call (.ident f) (.cons true (.ident "arguments") .nil)) =
      (applyCall (.ident f) voidZero (.ident "arguments"), []) ∧
    spreadRewrite (.call (.member .thisE prop computed)
        (.cons true (.ident "arguments") .nil)) =
      (applyCall (.member .thisE prop computed) .thisE (.ident "arguments"), []) ∧
    foldExpr (.call (.ident "bar") (.cons true (.ident "arguments") .nil)) =
      (applyCall (.ident "bar") voidZero (.ident "arguments"), []) :=
  ⟨rfl, rfl, by decide⟩

/-- C6: every `new` expression with a spread argument is rewritten to the
`_construct(Callee, <argsExpression>)` helper call — never to an `.apply`
form; concretely `new Numbers(...nums)` becomes
`_construct(Numbers, [].concat(nums))` (fixture `new_expression`). -/
theorem new_spread_construct (callee : Expr) (args : Args)
    (h : hasSpreadArgs args = true) :
    spreadRewrite (.newE callee args) =
      (.call (.ident "_construct")
        (.cons false callee
          (.cons false (concatArgs (elemsOfArgs args) false) .nil)), []) ∧
    isApplyCall (spreadRewrite (.newE callee args)).1 = false ∧
    foldExpr (.newE (.ident "Numbers") (.cons true (.ident "nums") .nil)) =
      (.call (.ident "_construct") (.cons false (.ident "Numbers")
        (.cons false (concatCall (.array .nil) [.ident "nums"]) .nil)), []) := by
  have h1 : spreadRewrite (.newE callee args) =
      (.call (.ident "_construct")
        (.cons false callee
          (.cons false (concatArgs (elemsOfArgs args) false) .nil)), []) := by
    simp [spreadRewrite, h]
  exact ⟨h1, by rw [h1]; rfl, by decide⟩

/-- C6, witness: the `_construct` theorem applied to the argument list of
`new Numbers(...nums)`. -/
theorem new_spread_construct_witness :
    spreadRewrite (.newE (.ident "Numbers") (.cons true (.ident "nums") .nil)) =
      (.call (.ident "_construct")
        (.cons false (.ident "Numbers")
          (.cons false (concatArgs (elemsOfArgs (.cons true (.ident "nums") .nil)) false)
            .nil)), []) :=
  (new_spread_construct (.ident "Numbers") (.cons true (.ident "nums") .nil)
    (by decide)).1

/-- C7: every `super.method(...)` call containing a spread argument is
rewritten to `super.method.apply(this, <argsExpression>)` — `this` is the
first `apply` argument and no temporary is hoisted (the hoist list is
empty); concretely `super.bar(...args)` becomes
`super.bar.apply(this, args)` (fixture
`contexted_method_call_super_single_arg`). -/
theorem super_method_spread_apply_this (prop : Expr) (computed : Bool) (args : Args)
    (h : hasSpreadArgs args = true) :
    spreadRewrite (.call (.superMember prop computed) args) =
      (applyCall (.superMember prop computed) .thisE
        (concatArgs (elemsOfArgs args) true), []) ∧
    foldExpr (.call (.superMember (.ident "bar") false)
        (.cons true (.ident "args") .nil)) =
      (applyCall (.superMember (.ident "bar") false) .thisE (.ident "args"), []) :=
  ⟨by simp [spreadRewrite, h], by decide⟩

/-- C7, witness: the `super` theorem applied to the argument list of
`super.bar(...args)`. -/
theorem super_method_spread_apply_this_witness :
    spreadRewrite (.call (.superMember (.ident "bar") false)
        (.cons true (.ident "args") .nil)) =
      (applyCall (.superMember (.ident "bar") false) .thisE
        (concatArgs (elemsOfArgs (.cons true (.ident "args") .nil)) true), []) :=
  (super_method_spread_apply_this (.ident "bar") false
    (.cons true (.ident "args") .nil) (by decide)).1

/-- C8: the pass is total (a Lean function) and on every tree containing
no spread syntax it is the identity and hoists nothing; concretely
`ca(a, b, c, d, e)` is returned unchanged (fixture `custom_call_noop`). -/
theorem spread_free_noop (e : Expr) (h : noSpreadExpr e = true) :
    foldExpr e = (e, []) ∧
    foldExpr (.call (.ident "ca") (.cons false (.ident "a") (.cons false (.ident "b")
        (.cons false (.ident "c") (.cons false (.ident "d")
          (.cons false (.ident "e") .nil)))))) =
      (.call (.ident "ca") (.cons false (.ident "a") (.cons false (.ident "b")
        (.cons false (.ident "c") (.cons false (.ident "d")
          (.cons false (.ident "e") .nil))))), []) :=
  ⟨foldExpr_noop e h, by decide⟩

/-- C8, witness: the no-op theorem applied to the spread-free
`custom_call_noop` fixture input. -/
theorem spread_free_noop_witness :
    foldExpr (.call (.ident "ca") (.cons false (.ident "a") (.cons false (.ident "b")
        (.cons false (.ident "c") (.cons false (.ident "d")
          (.cons false (.ident "e") .nil)))))) =
      (.call (.ident "ca") (.cons false (.ident "a") (.cons false (.ident "b")
        (.cons false (.ident "c") (.cons false (.ident "d")
          (.cons false (.ident "e") .nil))))), []) :=
  (spread_free_noop (.call (.ident "ca") (.cons false (.ident "a") (.cons false (.ident "b")
    (.cons false (.ident "c") (.cons false (.ident "d")
      (.cons false (.ident "e") .nil)))))) (by decide)).1

/-- C9: an array literal containing spread lowers via the
`concat`/`_toConsumableArray` strategy — the result is never an `.apply`
call — and every hole of a plain run is preserved positionally (flattening
the partition, whose plain runs are exactly the emitted literal contents,
restores the element list); concretely `[a,, b, c, ...d,,, e]` becomes
`[a,, b, c].concat(_toConsumableArray(d), [,, e])` (fixture
`custom_array_empty`). -/
theorem array_spread_concat_never_apply (elems : Elems)
    (h : hasSpreadElems elems = true) :
    spreadRewrite (.array elems) = (concatArgs elems false, []) ∧
    isApplyCall (concatArgs elems false) = false ∧
    runsFlat (toRuns elems) = elems ∧
    foldExpr (.array (.elem false (.ident "a") (.hole (.elem false (.ident "b")
        (.elem false (.ident "c") (.elem true (.ident "d")
          (.hole (.hole (.elem false (.ident "e") .nil))))))))) =
      (concatCall (plainArray [Option.some (.ident "a"), Option.none,
          Option.some (.ident "b"), Option.some (.ident "c")])
        [toConsumableArray (.ident "d"),
         plainArray [Option.none, Option.none, Option.some (.ident "e")]], []) :=
  ⟨by simp [spreadRewrite, h], concatArgs_not_apply elems, toRuns_flat elems, by decide⟩

/-- C9, witness: the array theorem applied to the `custom_array_empty`
fixture element list. -/
theorem array_spread_concat_never_apply_witness :
    spreadRewrite (.array (.elem false (.ident "a") (.hole (.elem false (.ident "b")
        (.elem false (.ident "c") (.elem true (.ident "d")
          (.hole (.hole (.elem false (.ident "e") .nil))))))))) =
      (concatArgs (.elem false (.ident "a") (.hole (.elem false (.ident "b")
        (.elem false (.ident "c") (.elem true (.ident "d")
          (.hole (.hole (.elem false (.ident "e") .nil)))))))) false, []) :=
  (array_spread_concat_never_apply (.elem false (.ident "a") (.hole (.elem false (.ident "b")
    (.elem false (.ident "c") (.elem true (.ident "d")
      (.hole (.hole (.elem false (.ident "e") .nil)))))))) (by decide)).1

/-- C10: a sole single spread of an expression that is not the literal
`arguments` is passed bare — no `_toConsumableArray` wrapper: `f(...e)`
becomes `f.apply(void 0, e)`, `[...e]` becomes `[].concat(e)`, a
sole-spread `new` becomes `_construct(C, [].concat(e))`, and a member
callee becomes `(_t = obj).m.apply(_t, e)` (fixtures
`method_call_single_arg`, `single`, `new_expression`,
`contexted_computed_method_call_single_arg`). -/
theorem sole_spread_bare_passthrough (e : Expr) (f : String) (obj prop : Expr)
    (computed : Bool) (hA : isArgumentsIdent e = false) (hobj : obj ≠ Expr.thisE) :
    spreadRewrite (.call (.ident f) (.cons true e .nil)) =
      (applyCall (.ident f) voidZero e, []) ∧
    spreadRewrite (.array (.elem true e .nil)) =
      (concatCall (.array .nil) [e], []) ∧
    spreadRewrite (.newE (.ident f) (.cons true e .nil)) =
      (.call (.ident "_construct") (.cons false (.ident f)
        (.cons false (concatCall (.array .nil) [e]) .nil)), []) ∧
    spreadRewrite (.call (.member obj prop computed) (.cons true e .nil)) =
      (applyCall (.member (.assign (.ident (aliasIdent obj)) obj) prop computed)
        (.ident (aliasIdent obj)) e, [aliasIdent obj]) := by
  refine ⟨rfl, ?_, ?_, ?_⟩
  · simp [spreadRewrite, hasSpreadElems, concatArgs, hA]
  · simp [spreadRewrite, hasSpreadArgs, elemsOfArgs, concatArgs, hA]
  · cases obj <;> simp_all [spreadRewrite, hasSpreadArgs, elemsOfArgs, concatArgs]

/-- C10, witness: the bare-pass-through theorem applied at the fixture
inputs (`e` = `args`, receiver `obj`, computed member). -/
theorem sole_spread_bare_passthrough_witness :
    spreadRewrite (.call (.member (.ident "obj") (.ident "method") true)
        (.cons true (.ident "args") .nil)) =
      (applyCall (.member (.assign (.ident (aliasIdent (.ident "obj"))) (.ident "obj"))
        (.ident "method") true) (.ident (aliasIdent (.ident "obj"))) (.ident "args"),
       [aliasIdent (.ident "obj")]) :=
  (sole_spread_bare_passthrough (.ident "args") "f" (.ident "obj") (.ident "method")
    true (by decide) (by decide)).2.2.2

end Spec2Proof
